import Mathlib

/-!
Verification of the visible-text extraction core of the Website-Text-Grabber
application (`app_streamlit_grab_text.py`), shallowly embedded in Lean 4.

The embedding covers the pure extraction pipeline: the visibility predicate
`is_hidden`, the sanitizing visible-text collector `visible_text_nodes`, the
entry point `extract_all_visible_text` (title derivation plus whitespace
normalization), and the combined-text export headers (`combined_parts`).
HTML parsing itself is performed by an external library in the application
and is out of scope: the embedding works over already-parsed document trees.
-/

namespace TextGrabber

/-! ## Python string semantics -/

/-- Characters treated as whitespace by Python's `str.strip()` (Unicode
whitespace as recognized by `str.isspace`). -/
def isPySpace (c : Char) : Bool :=
  [' ', '\t', '\n', '\x0b', '\x0c', '\r', '\x1c', '\x1d', '\x1e', '\x1f',
   '\x85', '\u00A0', '\u1680', '\u2000', '\u2001', '\u2002', '\u2003',
   '\u2004', '\u2005', '\u2006', '\u2007', '\u2008', '\u2009', '\u200A',
   '\u2028', '\u2029', '\u202F', '\u205F', '\u3000'].contains c

/-- Drop leading Python whitespace. -/
def stripLeftChars (l : List Char) : List Char := l.dropWhile isPySpace

/-- Drop trailing Python whitespace. -/
def stripRightChars (l : List Char) : List Char :=
  (l.reverse.dropWhile isPySpace).reverse

/-- Characters of a string after Python `str.strip()`. -/
def stripChars (l : List Char) : List Char := stripRightChars (stripLeftChars l)

/-- Python `s.strip()`: remove leading and trailing whitespace. -/
def pyStrip (s : String) : String := String.mk (stripChars s.data)

/-- Python `s.lower()`, character by character.  (`Char.toLower` lowers the
ASCII range; the attribute values compared against are ASCII.) -/
def pyLower (s : String) : String := String.mk (s.data.map Char.toLower)

/-- Does the first list occur at the start of the second? -/
def segAt : List Char → List Char → Bool
  | [], _ => true
  | _ :: _, [] => false
  | a :: as, b :: bs => a = b && segAt as bs

/-- Does the first list occur contiguously anywhere in the second?
(Python's substring test `pat in s`.) -/
def containsSeg : List Char → List Char → Bool
  | pat, [] => segAt pat []
  | pat, x@(_ :: rest) => segAt pat x || containsSeg pat rest

/-- Python substring test `pat in s`. -/
def containsSubstr (pat s : String) : Bool := containsSeg pat.data s.data

/-- Python `s.replace("\u00A0", " ")`: the pattern is a single character,
so the replacement is a character map. -/
def replaceNBSP (s : String) : String :=
  String.mk (s.data.map fun c => if c = '\u00A0' then ' ' else c)

/-- Is the character a space or a tab (the class `[ \t]`)? -/
def isHWS (c : Char) : Bool := c = ' ' || c = '\t'

/-- State machine for `re.sub(r"[ \t]+", " ", s)`: a maximal run of spaces
and tabs is replaced by a single space; `inRun` records whether the previous
character belonged to such a run. -/
def collapseHWSAux : List Char → Bool → List Char
  | [], _ => []
  | c :: rest, inRun =>
    if isHWS c then
      if inRun then collapseHWSAux rest true
      else ' ' :: collapseHWSAux rest true
    else c :: collapseHWSAux rest false

/-- Embedding of `re.sub(r"[ \t]+", " ", s)`. -/
def collapseHWS (s : String) : String := String.mk (collapseHWSAux s.data false)

/-- Output for one maximal run of `run` consecutive newlines under
`re.sub(r"\n{3,}", "\n\n", s)`: runs of three or more become exactly two,
shorter runs are untouched. -/
def emitNL (run : Nat) : List Char :=
  List.replicate (if run ≥ 3 then 2 else run) '\n'

/-- State machine for `re.sub(r"\n{3,}", "\n\n", s)`: `run` counts the
newlines of the current maximal run, emitted via `emitNL` when it ends. -/
def collapseNLAux : List Char → Nat → List Char
  | [], run => emitNL run
  | c :: rest, run =>
    if c = '\n' then collapseNLAux rest (run + 1)
    else emitNL run ++ c :: collapseNLAux rest 0

/-- Embedding of `re.sub(r"\n{3,}", "\n\n", s)`. -/
def collapseNLs (s : String) : String := String.mk (collapseNLAux s.data 0)

/-- Python `"\n".join(parts)`. -/
def joinNL : List String → String
  | [] => ""
  | [p] => p
  | p :: q :: rest => p ++ "\n" ++ joinNL (q :: rest)

/-- Python `"".join(parts)`. -/
def concatStrings : List String → String
  | [] => ""
  | s :: rest => s ++ concatStrings rest

/-! ## Document tree (the parsed markup the external HTML parser supplies) -/

mutual
/-- A node of the parsed document tree: an element (tag name, attribute
mapping, ordered children), a text node, or a comment node. -/
inductive Node where
  | element : String → List (String × String) → NodeList → Node
  | text : String → Node
  | comment : String → Node
/-- Ordered children of an element (or of the document root). -/
inductive NodeList where
  | nil : NodeList
  | cons : Node → NodeList → NodeList
end

/-- Build a `NodeList` from a `List Node`. -/
def nodesOf : List Node → NodeList
  | [] => NodeList.nil
  | n :: rest => NodeList.cons n (nodesOf rest)

/-- An element's attribute mapping (keys are unique, as in a Python dict). -/
abbrev Attrs := List (String × String)

/-- Python `el.get(key)`: the attribute's value, or `None` when absent. -/
def getAttr : Attrs → String → Option String
  | [], _ => none
  | (k, v) :: rest, key => if k = key then some v else getAttr rest key

/-- Python `el.has_attr(key)`. -/
def hasAttr (attrs : Attrs) (key : String) : Bool := (getAttr attrs key).isSome

/-! ## Visibility predicate (source: `is_hidden`, lines 28-37) -/

/-- Embedding of `is_hidden(el)`: the element's own attributes decide hiddenness.
`el.get("style") or ""` is `getD ""` (an absent attribute reads as empty). -/
def is_hidden (attrs : Attrs) : Bool :=
  let style := pyLower ((getAttr attrs "style").getD "")
  if containsSubstr "display:none" style || containsSubstr "visibility:hidden" style then
    true
  else
    let ariaHidden := pyLower ((getAttr attrs "aria-hidden").getD "")
    if ariaHidden == "true" then true
    else hasAttr attrs "hidden"

/-! ## Sanitizer and collector (source: `visible_text_nodes`, lines 39-55) -/

/-- Tag names decomposed by `soup(["script", "style", "noscript", "template"])`. -/
def badTag (t : String) : Bool :=
  t == "script" || t == "style" || t == "noscript" || t == "template"

mutual
/-- The sanitizing pass of `visible_text_nodes`: decompose the four
non-rendering element kinds (with their whole subtrees) and extract
comments, at any depth.  `none` means the node was removed. -/
def sanitizeNode : Node → Option Node
  | Node.element tag attrs children =>
    if badTag tag then none
    else some (Node.element tag attrs (sanitizeList children))
  | Node.text s => some (Node.text s)
  | Node.comment _ => none
/-- The map of `sanitizeNode` over a sibling list. -/
def sanitizeList : NodeList → NodeList
  | NodeList.nil => NodeList.nil
  | NodeList.cons n rest =>
    match sanitizeNode n with
    | none => sanitizeList rest
    | some m => NodeList.cons m (sanitizeList rest)
end

mutual
/-- The collecting loop of `visible_text_nodes`: every text node of the
(already sanitized) tree, in depth-first document order, skipped when its
direct parent is hidden or its content is empty / all-whitespace, yielded
raw otherwise.  `parentAttrs` are the attributes of the node's parent
(the document root has none). -/
def collectTexts (parentAttrs : Attrs) : Node → List String
  | Node.text s =>
    if is_hidden parentAttrs then []
    else if s = "" ∨ pyStrip s = "" then []
    else [s]
  | Node.comment _ => []
  | Node.element _ attrs children => collectListTexts attrs children
termination_by structural n => n
/-- The map of `collectTexts` over a sibling list, concatenated in order. -/
def collectListTexts (parentAttrs : Attrs) : NodeList → List String
  | NodeList.nil => []
  | NodeList.cons n rest =>
    collectTexts parentAttrs n ++ collectListTexts parentAttrs rest
termination_by structural l => l
end

/-- Embedding of `visible_text_nodes(soup)`: sanitize, then collect the visible raw text
fragments.  The soup (document root) itself carries no attributes. -/
def visible_text_nodes (soup : NodeList) : List String :=
  collectListTexts [] (sanitizeList soup)

/-! ## Title derivation (source: `extract_all_visible_text`, line 59) -/

mutual
/-- Embedding of `soup.title`: the first element named `title`, in depth-first pre-order. -/
def findTitleNode : Node → Option Node
  | Node.element tag attrs children =>
    if tag = "title" then some (Node.element tag attrs children)
    else findTitleList children
  | Node.text _ => none
  | Node.comment _ => none
/-- The map of `findTitleNode` over a sibling list, first hit wins. -/
def findTitleList : NodeList → Option Node
  | NodeList.nil => none
  | NodeList.cons n rest =>
    match findTitleNode n with
    | some t => some t
    | none => findTitleList rest
end

/-- BeautifulSoup's `tag.string`: when the element has exactly one child the
child's string (a comment counts as a string; a lone element child is
resolved recursively); otherwise `None`. -/
def nodeString : Node → Option String
  | Node.element _ _ (NodeList.cons c NodeList.nil) =>
    (match c with
     | Node.text s => some s
     | Node.comment s => some s
     | e => nodeString e)
  | _ => none

mutual
/-- The plain strings of a subtree in document order, as traversed by
`tag.get_text` (comments are not plain strings and are skipped). -/
def allTextStrings : Node → List String
  | Node.element _ _ children => allTextStringsList children
  | Node.text s => [s]
  | Node.comment _ => []
/-- The map of `allTextStrings` over a sibling list, concatenated in order. -/
def allTextStringsList : NodeList → List String
  | NodeList.nil => []
  | NodeList.cons n rest => allTextStrings n ++ allTextStringsList rest
end

/-- Embedding of `tag.get_text(strip=True)`: each contained string stripped, empty results
skipped, survivors concatenated without a separator. -/
def get_text_strip (n : Node) : String :=
  concatStrings (((allTextStrings n).map pyStrip).filter fun s => s ≠ "")

/-! ## Normalizer and entry point (source: lines 57-67) -/

/-- Lines 63-66 of the source: join the collected fragments (each stripped,
empty ones dropped) with newlines, replace non-breaking spaces, collapse
space/tab runs, collapse triple-or-more newlines to two, and strip. -/
def normalize_from_code (parts : List String) : String :=
  pyStrip (collapseNLs (collapseHWS (replaceNBSP
    (joinNL ((parts.filter fun p => pyStrip p ≠ "").map pyStrip)))))

/-- Embedding of `extract_all_visible_text(html)` over the parsed tree: the derived title
(line 59: guarded by truthiness of `soup.title` and `soup.title.string`)
and the normalized visible body text. -/
def extract_all_visible_text (soup : NodeList) : String × String :=
  let title :=
    match findTitleList soup with
    | some t =>
      match nodeString t with
      | some s => if s = "" then "" else get_text_strip t
      | none => ""
    | none => ""
  (title, normalize_from_code (visible_text_nodes soup))

/-! ## Definitions modelled from the spec (for the refinement claims) -/

/-- Modelled from the spec: the visibility rule of section 4.2, first match
wins, case-insensitive values, absent attributes read as empty / not
present. -/
def hidden_rule_spec (attrs : Attrs) : Bool :=
  containsSubstr "display:none" (pyLower ((getAttr attrs "style").getD ""))
  || containsSubstr "visibility:hidden" (pyLower ((getAttr attrs "style").getD ""))
  || pyLower ((getAttr attrs "aria-hidden").getD "") == "true"
  || hasAttr attrs "hidden"

/-- Modelled from the spec: the six-step normalizer of section 4.5 — trim
each fragment and discard the ones that become empty, join with single
newlines, replace non-breaking spaces, collapse space/tab runs, collapse
three-or-more newlines to two, trim the result. -/
def normalize_spec (parts : List String) : String :=
  let step1 := (parts.map pyStrip).filter fun p => p ≠ ""
  let step2 := joinNL step1
  let step3 := replaceNBSP step2
  let step4 := collapseHWS step3
  let step5 := collapseNLs step4
  pyStrip step5

/-! ## Batch export headers (source: lines 20-25 and 153-157) -/

/-- One result record of the batch (dataclass `Row`). -/
structure Row where
  url : String
  title : String
  text : String
  notes : String

/-- The header line of one record in the combined text export, without its
trailing newline: `f"===== [{idx}] {r.title or '(no title)'} :: {r.url} ====="`
(Python's `x or y` yields `y` exactly when the string `x` is empty). -/
def header_line (idx : Nat) (r : Row) : String :=
  "===== [" ++ toString idx ++ "] "
    ++ (if r.title = "" then "(no title)" else r.title)
    ++ " :: " ++ r.url ++ " ====="

/-- One entry of `combined_parts`: header (with its newline), the record's
text (`r.text or ""` is `r.text` for a string), and a blank line. -/
def combined_part (idx : Nat) (r : Row) : String :=
  header_line idx r ++ "\n" ++ r.text ++ "\n\n"

/-- Embedding of `combined_parts`, enumerating records from index `idx` (the source
enumerates from 1). -/
def combined_parts : Nat → List Row → List String
  | _, [] => []
  | idx, r :: rest => combined_part idx r :: combined_parts (idx + 1) rest

/-- Embedding of `combined_txt = "".join(combined_parts).strip()`. -/
def combined_txt (rows : List Row) : String :=
  pyStrip (concatStrings (combined_parts 1 rows))

/-! ## Absence of non-rendering nodes (for the sanitizer claims) -/

mutual
/-- No decomposable element (script/style/noscript/template) and no comment
anywhere in the subtree. -/
def noBadNode : Node → Bool
  | Node.element t _ children => !badTag t && noBadList children
  | Node.text _ => true
  | Node.comment _ => false
/-- The map of `noBadNode` over a sibling list. -/
def noBadList : NodeList → Bool
  | NodeList.nil => true
  | NodeList.cons n rest => noBadNode n && noBadList rest
end

/-! ## Concrete documents used as test inputs -/

/-- Parsed tree of `<script>console.log('x')</script>Hello`. -/
def docScript : NodeList :=
  nodesOf [Node.element "script" [] (nodesOf [Node.text "console.log('x')"]),
           Node.text "Hello"]

/-- Parsed tree of `<style>.a{color:red}</style>World`. -/
def docStyle : NodeList :=
  nodesOf [Node.element "style" [] (nodesOf [Node.text ".a\x7bcolor:red\x7d"]),
           Node.text "World"]

/-- Parsed tree of `<!-- secret -->Visible`. -/
def docComment : NodeList :=
  nodesOf [Node.comment " secret ", Node.text "Visible"]

/-- A document whose grandparent-level element is hidden while the text
node's direct parent is not:
`<div style="visibility:hidden"><span>Shown</span></div>`. -/
def docGrandparent : NodeList :=
  nodesOf [Node.element "div" [("style", "visibility:hidden")]
            (nodesOf [Node.element "span" [] (nodesOf [Node.text "Shown"])])]

/-- Parsed tree of `<title>  My Page  </title>`. -/
def docTitle : NodeList :=
  nodesOf [Node.element "title" [] (nodesOf [Node.text "  My Page  "])]

/-- A title element with two children (text and a nested element), as
html.parser produces for `<title>a<b>c</b></title>`. -/
def titleMulti : Node :=
  Node.element "title" []
    (nodesOf [Node.text "a", Node.element "b" [] (nodesOf [Node.text "c"])])

/-- A document whose title element has more than one child. -/
def docTitleMulti : NodeList := nodesOf [titleMulti]

/-- Parsed tree of `<p> a </p>`: one visible text node with surrounding
whitespace. -/
def docPadded : NodeList :=
  nodesOf [Node.element "p" [] (nodesOf [Node.text " a "])]

/-- A parsed tree whose title text `A\u00A0B` holds an interior non-breaking
space. -/
def docNbspTitle : NodeList :=
  nodesOf [Node.element "title" [] (nodesOf [Node.text "A\u00A0B"])]

/-- A batch row with an empty title. -/
def rowNoTitle : Row := ⟨"http://u", "", "", ""⟩

/-- A batch row with a non-empty title and body. -/
def rowTitled : Row := ⟨"http://u", "T", "body", ""⟩

/-! ## Basic string lemmas -/

theorem str_data_append (a b : String) : (a ++ b).data = a.data ++ b.data := by
  cases a; cases b; rfl

theorem str_append_empty (s : String) : s ++ "" = s := by
  cases s with
  | mk l => show String.mk (l ++ []) = String.mk l; rw [List.append_nil]

/-! ## Claim C5: normalizer refinement -/

theorem filter_map_strip (parts : List String) :
    (parts.filter fun p => pyStrip p ≠ "").map pyStrip
      = (parts.map pyStrip).filter fun p => p ≠ "" := by
  induction parts with
  | nil => rfl
  | cons p rest ih =>
    by_cases h : pyStrip p = "" <;> simp [List.filter, h] <;> simpa using ih

/-- Claim C5: for every sequence of raw text fragments, the code's
normalizer (lines 63-66) computes exactly the spec's six steps: trim each
fragment and drop empties, join with single newlines, replace non-breaking
spaces, collapse space/tab runs, collapse three-or-more newlines to two,
and trim the result; determinism is inherent in its being a function. -/
theorem normalizer_matches_spec_steps (parts : List String) :
    normalize_from_code parts = normalize_spec parts := by
  unfold normalize_from_code normalize_spec
  rw [filter_map_strip]

/-! ## Claim C1: the entry point is total -/

/-- Claim C1: the extraction entry point is a total function over parsed
documents — it always returns a pair of strings, and both components may be
empty (witnessed by the empty document).  Parsing is performed by the
external HTML library and is out of scope; every operation in the embedded
extraction pipeline is total as in the source (absent attributes read as
defaults, the title access is guarded). -/
theorem extract_total_pair :
    (∀ soup : NodeList, ∃ t x : String, extract_all_visible_text soup = (t, x))
      ∧ extract_all_visible_text NodeList.nil = ("", "") := by
  refine ⟨fun soup => ⟨_, _, rfl⟩, by decide⟩

/-! ## Claim C2: the visibility predicate -/

/-- Claim C2: `is_hidden` returns hidden exactly when the inline style
contains `display:none` or `visibility:hidden`, or `aria-hidden` equals
`true`, or the boolean `hidden` attribute is present — all values
case-insensitively, an absent attribute read as empty/not-present; on an
element with no attributes it returns visible rather than failing. -/
theorem is_hidden_matches_spec_rule :
    (∀ attrs : Attrs, is_hidden attrs = hidden_rule_spec attrs)
      ∧ is_hidden [] = false := by
  refine ⟨fun attrs => ?_, by decide⟩
  unfold is_hidden hidden_rule_spec
  cases h1 : containsSubstr "display:none" (pyLower ((getAttr attrs "style").getD "")) <;>
    cases h2 : containsSubstr "visibility:hidden" (pyLower ((getAttr attrs "style").getD "")) <;>
      cases h3 : pyLower ((getAttr attrs "aria-hidden").getD "") == "true" <;>
        simp [h1, h2, h3]

/-! ## Claim C3: only the direct parent decides visibility -/

/-- Claim C3: the collector's hidden check reads only the attributes of a
text node's direct parent: collecting inside an element is independent of
any enclosing (grandparent and higher) attributes, and concretely a text
node whose grandparent carries `visibility:hidden` while its direct parent
is unhidden still reaches the output. -/
theorem visibility_uses_only_direct_parent :
    (∀ (pa pa' attrs : Attrs) (tag : String) (children : NodeList),
        collectTexts pa (Node.element tag attrs children)
          = collectTexts pa' (Node.element tag attrs children))
      ∧ extract_all_visible_text docGrandparent = ("", "Shown") := by
  exact ⟨fun pa pa' attrs tag children => by simp [collectTexts], by decide⟩

/-! ## Claims C4 and C8: sanitizer helper lemmas -/

mutual
theorem sanitizeNode_noBad : ∀ (n m : Node), sanitizeNode n = some m → noBadNode m = true
  | Node.element tag attrs children, m, h => by
    by_cases hb : badTag tag = true
    · simp [sanitizeNode, hb] at h
    · simp [sanitizeNode, hb] at h
      rw [← h]
      simp [noBadNode, hb, sanitizeList_noBad children]
  | Node.text s, m, h => by
    simp [sanitizeNode] at h
    rw [← h]; rfl
  | Node.comment s, m, h => by simp [sanitizeNode] at h
theorem sanitizeList_noBad : ∀ l : NodeList, noBadList (sanitizeList l) = true
  | NodeList.nil => rfl
  | NodeList.cons n rest => by
    cases hn : sanitizeNode n with
    | none => simp [sanitizeList, hn, sanitizeList_noBad rest]
    | some m =>
      simp [sanitizeList, hn, noBadList, sanitizeNode_noBad n m hn, sanitizeList_noBad rest]
end

/-- Claim C4: the sanitizer removes every script, style, noscript and
template element (with its whole subtree) and every comment at any depth —
no such node survives it — and on the three example documents the extracted
body text is exactly `Hello`, `World` and `Visible`. -/
theorem sanitizer_removes_nonrendering_nodes :
    (∀ soup : NodeList, noBadList (sanitizeList soup) = true)
      ∧ extract_all_visible_text docScript = ("", "Hello")
      ∧ extract_all_visible_text docStyle = ("", "World")
      ∧ extract_all_visible_text docComment = ("", "Visible") :=
  ⟨sanitizeList_noBad, by decide, by decide, by decide⟩

mutual
theorem sanitizeNode_idem : ∀ (n m : Node), sanitizeNode n = some m → sanitizeNode m = some m
  | Node.element tag attrs children, m, h => by
    by_cases hb : badTag tag = true
    · simp [sanitizeNode, hb] at h
    · simp [sanitizeNode, hb] at h
      rw [← h]
      simp [sanitizeNode, hb, sanitizeList_idem children]
  | Node.text s, m, h => by
    simp [sanitizeNode] at h
    rw [← h]; rfl
  | Node.comment s, m, h => by simp [sanitizeNode] at h
theorem sanitizeList_idem : ∀ l : NodeList, sanitizeList (sanitizeList l) = sanitizeList l
  | NodeList.nil => rfl
  | NodeList.cons n rest => by
    cases hn : sanitizeNode n with
    | none => simp [sanitizeList, hn, sanitizeList_idem rest]
    | some m =>
      simp [sanitizeList, hn, sanitizeNode_idem n m hn, sanitizeList_idem rest]
end

/-- Claim C8: the sanitizing pass is idempotent — running it on an already
sanitized tree returns that tree unchanged (the same surviving node set),
so a second run is a harmless no-op. -/
theorem sanitizer_idempotent :
    ∀ soup : NodeList, sanitizeList (sanitizeList soup) = sanitizeList soup :=
  sanitizeList_idem

/-! ## Claim C7: what the collector yields -/

mutual
theorem collect_mem_node :
    ∀ (pa : Attrs) (n : Node) (s : String), s ∈ collectTexts pa n → s ≠ "" ∧ pyStrip s ≠ ""
  | pa, Node.text str, s, hmem => by
    by_cases hh : is_hidden pa = true
    · simp [collectTexts, hh] at hmem
    · by_cases he : str = "" ∨ pyStrip str = ""
      · simp [collectTexts, hh, he] at hmem
      · simp [collectTexts, hh, he] at hmem
        push_neg at he
        rw [hmem]
        exact he
  | pa, Node.comment str, s, hmem => by simp [collectTexts] at hmem
  | pa, Node.element tag attrs children, s, hmem => by
    simp only [collectTexts] at hmem
    exact collect_mem_list attrs children s hmem
theorem collect_mem_list :
    ∀ (pa : Attrs) (l : NodeList) (s : String), s ∈ collectListTexts pa l → s ≠ "" ∧ pyStrip s ≠ ""
  | pa, NodeList.nil, s, hmem => by simp [collectListTexts] at hmem
  | pa, NodeList.cons n rest, s, hmem => by
    simp only [collectListTexts, List.mem_append] at hmem
    cases hmem with
    | inl h => exact collect_mem_node pa n s h
    | inr h => exact collect_mem_list pa rest s h
end

/-- Claim C7 (amended): every fragment yielded by the visible text collector
is a non-empty string with non-whitespace content (never a null entry in the
embedding's total list of strings) — but it is the raw, untrimmed text-node
content, not a trimmed one; trimming happens later in the normalizer. -/
theorem collector_fragments_amended :
    ∀ (soup : NodeList) (s : String),
      s ∈ visible_text_nodes soup → s ≠ "" ∧ pyStrip s ≠ "" := by
  intro soup s h
  exact collect_mem_list [] (sanitizeList soup) s h

/-- Witness for the amended claim C7 at a concrete document. -/
theorem collector_fragments_amended_witness :
    (" a " ∈ visible_text_nodes docPadded) ∧ (" a " ≠ "" ∧ pyStrip " a " ≠ "") :=
  ⟨by decide, collector_fragments_amended docPadded " a " (by decide)⟩

/-- Counterexample to claim C7 as stated: the collector yields the raw
fragment `" a "` for the document `<p> a </p>`, and that fragment is not
equal to its own trim. -/
theorem collector_raw_fragment_counterexample :
    visible_text_nodes docPadded = [" a "] ∧ pyStrip " a " ≠ " a " := by
  refine ⟨by decide, by decide⟩

/-! ## Claim C6: title derivation -/

theorem get_text_single (tag : String) (attrs : Attrs) (s : String) :
    get_text_strip (Node.element tag attrs (NodeList.cons (Node.text s) NodeList.nil))
      = pyStrip s := by
  by_cases h : pyStrip s = "" <;>
    simp [get_text_strip, allTextStrings, allTextStringsList, List.filter, h, concatStrings]

/-- Claim C6 (amended): when the first title element's content is a single
text node, the returned title is that text trimmed (whether or not it is
empty); when no title element exists the returned title is the empty
string; and `<title>  My Page  </title>` yields `My Page`.  (When the title
element has several children, the source's `soup.title.string` guard is
`None` and the returned title is empty even though the element carries text
content — see the counterexample.) -/
theorem title_derivation_amended :
    (∀ (soup : NodeList) (tag : String) (attrs : Attrs) (s : String),
        findTitleList soup
            = some (Node.element tag attrs (NodeList.cons (Node.text s) NodeList.nil)) →
          (extract_all_visible_text soup).1 = pyStrip s)
      ∧ (∀ soup : NodeList,
          findTitleList soup = none → (extract_all_visible_text soup).1 = "")
      ∧ (extract_all_visible_text docTitle).1 = "My Page" := by
  refine ⟨?_, ?_, by decide⟩
  · intro soup tag attrs s h
    by_cases hs : s = ""
    · simp [extract_all_visible_text, h, nodeString, hs, pyStrip, stripChars,
            stripLeftChars, stripRightChars]
    · simp [extract_all_visible_text, h, nodeString, hs, get_text_single]
  · intro soup h
    simp [extract_all_visible_text, h]

/-- Witness for the amended claim C6 at a concrete document. -/
theorem title_derivation_amended_witness :
    (findTitleList docTitle
        = some (Node.element "title" []
            (NodeList.cons (Node.text "  My Page  ") NodeList.nil)))
      ∧ (extract_all_visible_text docTitle).1 = pyStrip "  My Page  " :=
  ⟨rfl, title_derivation_amended.1 docTitle "title" [] "  My Page  " rfl⟩

/-- Counterexample to claim C6 as stated: for a title element with two
children (text `a` and an element wrapping `c`), the element carries
non-empty text content `ac`, yet the extractor returns the empty title. -/
theorem title_multichild_counterexample :
    (extract_all_visible_text docTitleMulti).1 = ""
      ∧ get_text_strip titleMulti = "ac"
      ∧ ("" : String) ≠ "ac" := by
  refine ⟨by decide, by decide, by decide⟩

/-! ## Claim C10: normalization touches the body only -/

theorem mem_collapseHWSAux :
    ∀ (l : List Char) (b : Bool) (c : Char), c ∈ collapseHWSAux l b → c = ' ' ∨ c ∈ l := by
  intro l
  induction l with
  | nil => intro b c hc; simp [collapseHWSAux] at hc
  | cons a rest ih =>
    intro b c hc
    by_cases ha : isHWS a = true
    · cases b with
      | true =>
        simp [collapseHWSAux, ha] at hc
        rcases ih true c hc with h | h
        · exact Or.inl h
        · exact Or.inr (List.mem_cons_of_mem a h)
      | false =>
        simp [collapseHWSAux, ha] at hc
        rcases hc with h | h
        · exact Or.inl h
        · rcases ih true c h with h' | h'
          · exact Or.inl h'
          · exact Or.inr (List.mem_cons_of_mem a h')
    · simp [collapseHWSAux, ha] at hc
      rcases hc with h | h
      · exact Or.inr (by simp [h])
      · rcases ih false c h with h' | h'
        · exact Or.inl h'
        · exact Or.inr (List.mem_cons_of_mem a h')

theorem mem_emitNL (run : Nat) (c : Char) (h : c ∈ emitNL run) : c = '\n' := by
  unfold emitNL at h
  exact List.eq_of_mem_replicate h

theorem mem_collapseNLAux :
    ∀ (l : List Char) (run : Nat) (c : Char), c ∈ collapseNLAux l run → c = '\n' ∨ c ∈ l := by
  intro l
  induction l with
  | nil => intro run c hc; exact Or.inl (mem_emitNL run c hc)
  | cons a rest ih =>
    intro run c hc
    by_cases ha : a = '\n'
    · simp [collapseNLAux, ha] at hc
      rcases ih (run + 1) c hc with h | h
      · exact Or.inl h
      · exact Or.inr (List.mem_cons_of_mem a h)
    · simp [collapseNLAux, ha, List.mem_append] at hc
      rcases hc with h | h | h
      · exact Or.inl (mem_emitNL run c h)
      · exact Or.inr (by simp [h])
      · rcases ih 0 c h with h' | h'
        · exact Or.inl h'
        · exact Or.inr (List.mem_cons_of_mem a h')

theorem mem_stripChars (l : List Char) (c : Char) (h : c ∈ stripChars l) : c ∈ l := by
  unfold stripChars stripRightChars stripLeftChars at h
  rw [List.mem_reverse] at h
  have h1 := (List.dropWhile_sublist isPySpace).mem h
  rw [List.mem_reverse] at h1
  exact (List.dropWhile_sublist isPySpace).mem h1

theorem mem_replaceNBSP (s : String) (c : Char) (h : c ∈ (replaceNBSP s).data) :
    c ≠ '\u00A0' := by
  simp only [replaceNBSP, List.mem_map] at h
  obtain ⟨a, _, ha⟩ := h
  by_cases hn : a = '\u00A0'
  · simp [hn] at ha; rw [← ha]; decide
  · simp [hn] at ha; rw [← ha]; exact hn

theorem body_data_no_nbsp (parts : List String) (c : Char)
    (h : c ∈ (normalize_from_code parts).data) : c ≠ '\u00A0' := by
  unfold normalize_from_code at h
  have h1 := mem_stripChars _ c h
  rcases mem_collapseNLAux _ _ c h1 with hnl | h2
  · rw [hnl]; decide
  · rcases mem_collapseHWSAux _ _ c h2 with hsp | h3
    · rw [hsp]; decide
    · exact mem_replaceNBSP _ c h3

/-- Claim C10: whitespace normalization applies to the body only, never to
the title — a non-breaking space can never survive into the extracted body
text, while the title (only stripped at its ends) keeps interior
non-breaking spaces, as the concrete document with title text `A\u00A0B`
shows: its returned title still contains the character while its body text
does not. -/
theorem title_keeps_nbsp_body_does_not :
    (∀ soup : NodeList, (extract_all_visible_text soup).2.data.contains '\u00A0' = false)
      ∧ (extract_all_visible_text docNbspTitle).1.data.contains '\u00A0' = true
      ∧ (extract_all_visible_text docNbspTitle).2.data.contains '\u00A0' = false := by
  refine ⟨fun soup => ?_, by decide, by decide⟩
  refine Bool.eq_false_iff.mpr fun htrue => ?_
  obtain ⟨a, ha, hbeq⟩ := List.contains_iff_exists_mem_beq.mp htrue
  have haeq : a = '\u00A0' := (beq_iff_eq.mp hbeq).symm
  have hbody : (extract_all_visible_text soup).2
      = normalize_from_code (visible_text_nodes soup) := rfl
  rw [hbody] at ha
  exact body_data_no_nbsp (visible_text_nodes soup) a ha haeq

/-! ## Claim C9: the combined export's header lines -/

theorem segAt_self_append : ∀ (m v : List Char), segAt m (m ++ v) = true
  | [], _ => rfl
  | a :: as, v => by simp [segAt, segAt_self_append as v]

theorem containsSeg_append_self : ∀ (u m v : List Char), containsSeg m (u ++ m ++ v) = true
  | [], [], v => by
    cases v with
    | nil => rfl
    | cons b bs => simp [containsSeg, segAt]
  | [], a :: as, v => by
    have h := segAt_self_append (a :: as) v
    simp only [List.cons_append] at h
    simp [containsSeg, h]
  | b :: u', m, v => by
    have h := containsSeg_append_self u' m v
    simp only [List.append_assoc] at h
    simp [containsSeg, h]

theorem stripLeft_decomp :
    ∀ (u m v : List Char) (c : Char), m.head? = some c → isPySpace c = false →
      ∃ u', stripLeftChars (u ++ m ++ v) = u' ++ m ++ v := by
  intro u
  induction u with
  | nil =>
    intro m v c hc hns
    cases m with
    | nil => simp at hc
    | cons a as =>
      refine ⟨[], ?_⟩
      rw [List.head?_cons] at hc
      injection hc with hac
      subst hac
      simp [stripLeftChars, List.dropWhile_cons, hns]
  | cons b u' ih =>
    intro m v c hc hns
    by_cases hb : isPySpace b = true
    · obtain ⟨u'', hu⟩ := ih m v c hc hns
      refine ⟨u'', ?_⟩
      simp only [stripLeftChars, List.cons_append, List.dropWhile_cons, hb, if_true]
      exact hu
    · refine ⟨b :: u', ?_⟩
      simp only [Bool.not_eq_true] at hb
      simp [stripLeftChars, List.dropWhile_cons, hb]

theorem stripRight_decomp :
    ∀ (u m v : List Char) (c : Char), m.getLast? = some c → isPySpace c = false →
      ∃ v', stripRightChars (u ++ m ++ v) = u ++ m ++ v' := by
  intro u m v c hc hns
  have hrev : (u ++ m ++ v).reverse = v.reverse ++ m.reverse ++ u.reverse := by
    simp [List.reverse_append, List.append_assoc]
  have hhead : m.reverse.head? = some c := by rw [List.head?_reverse]; exact hc
  obtain ⟨w, hw⟩ := stripLeft_decomp v.reverse m.reverse u.reverse c hhead hns
  refine ⟨w.reverse, ?_⟩
  unfold stripRightChars
  rw [hrev]
  unfold stripLeftChars at hw
  rw [hw]
  simp [List.reverse_append, List.append_assoc]

theorem stripChars_decomp (u m v : List Char) (c d : Char)
    (hc : m.head? = some c) (hcs : isPySpace c = false)
    (hd : m.getLast? = some d) (hds : isPySpace d = false) :
    ∃ u' v', stripChars (u ++ m ++ v) = u' ++ m ++ v' := by
  obtain ⟨u1, h1⟩ := stripLeft_decomp u m v c hc hcs
  obtain ⟨v1, h2⟩ := stripRight_decomp u1 m v d hd hds
  refine ⟨u1, v1, ?_⟩
  unfold stripChars
  rw [h1]
  exact h2

theorem header_line_head (idx : Nat) (r : Row) :
    (header_line idx r).data.head? = some '=' := by
  unfold header_line
  simp [str_data_append]

theorem header_line_last (idx : Nat) (r : Row) :
    (header_line idx r).data.getLast? = some '=' := by
  unfold header_line
  simp only [str_data_append]
  rw [show ([' ', '=', '=', '=', '=', '='] : List Char)
        = [' ', '=', '=', '=', '='] ++ ['='] from rfl]
  simp only [← List.append_assoc]
  exact List.getLast?_concat _

theorem concat_parts_decomp :
    ∀ (rows : List Row) (k i : Nat) (r : Row), rows[i]? = some r →
      ∃ u v, (concatStrings (combined_parts k rows)).data
        = u ++ (header_line (k + i) r).data ++ v := by
  intro rows
  induction rows with
  | nil => intro k i r h; simp at h
  | cons r0 rest ih =>
    intro k i r h
    cases i with
    | zero =>
      rw [List.getElem?_cons_zero] at h
      injection h with h
      subst h
      refine ⟨[], ("\n" ++ r0.text ++ "\n\n").data
        ++ (concatStrings (combined_parts (k + 1) rest)).data, ?_⟩
      simp [concatStrings, combined_part, str_data_append, List.append_assoc]
    | succ i' =>
      rw [List.getElem?_cons_succ] at h
      obtain ⟨u, v, hu⟩ := ih (k + 1) i' r h
      refine ⟨(combined_part k r0).data ++ u, v, ?_⟩
      have hk : k + (i' + 1) = (k + 1) + i' := by omega
      rw [hk]
      simp [concatStrings, str_data_append, List.append_assoc, hu]

/-- Claim C9 (amended): for every batch record with 1-based index `i + 1`,
the concatenated text export contains the header
`===== [index] title :: address =====`, where the record's address is
substituted verbatim but an empty title is replaced by `(no title)`
(`r.title or '(no title)'` in the source) rather than substituted
verbatim. -/
theorem combined_header_amended :
    ∀ (rows : List Row) (i : Nat) (r : Row), rows[i]? = some r →
      containsSubstr (header_line (i + 1) r) (combined_txt rows) = true := by
  intro rows i r h
  obtain ⟨u, v, hd⟩ := concat_parts_decomp rows 1 i r h
  rw [Nat.add_comm 1 i] at hd
  obtain ⟨u', v', hs⟩ := stripChars_decomp u ((header_line (i + 1) r).data) v '=' '='
    (header_line_head (i + 1) r) (by decide) (header_line_last (i + 1) r) (by decide)
  show containsSeg (header_line (i + 1) r).data (combined_txt rows).data = true
  have hc : (combined_txt rows).data
      = stripChars ((concatStrings (combined_parts 1 rows)).data) := rfl
  rw [hc, hd, hs]
  exact containsSeg_append_self u' _ v'

/-- Witness for the amended claim C9 at a concrete one-record batch. -/
theorem combined_header_amended_witness :
    ([rowTitled][0]? = some rowTitled)
      ∧ containsSubstr (header_line 1 rowTitled) (combined_txt [rowTitled]) = true :=
  ⟨rfl, combined_header_amended [rowTitled] 0 rowTitled rfl⟩

/-- Counterexample to claim C9 as stated: for a record whose title is the
empty string, the export does not contain the header with the title
substituted verbatim (`===== [1]  :: http://u =====`); it substitutes
`(no title)` instead. -/
theorem combined_header_counterexample :
    containsSubstr "===== [1]  :: http://u =====" (combined_txt [rowNoTitle]) = false
      ∧ combined_txt [rowNoTitle] = "===== [1] (no title) :: http://u =====" := by
  refine ⟨by decide, by decide⟩

end TextGrabber
